import Mathlib

/-!
Verification of the narration-timing pipeline of the 3b1b-style animation
repository.  The embedding covers:

* the segment timing accumulator of the `generate_audio` coroutines
  (`binary_search_audio.py`, `dfs_audio.py`, `dijkstra_v2_audio.py`);
* the concatenation playlist written to `concat.txt`;
* the JSON manifest written to `timing.json`;
* the per-segment playback driver `segment` of the synced scenes
  (`binary_search_synced.py`, `dfs_synced.py`);
* the Euclidean algorithm loop of `gcd_lcm_demo.py`.

Times are modelled as exact rationals.  Python's `round(x, 2)` is modelled
by `round2` below using Mathlib's `round`; the two differ only in the
tie-breaking rule at exact multiples of 0.005 (Python rounds half to even),
which none of the properties verified here touches.
-/

/-- Python's `round(x, 2)`: round to 2 decimal places. -/
def round2 (q : ℚ) : ℚ := (round (q * 100) : ℤ) / 100

/-- One entry of the hard-coded `SCRIPT` list: `{"id": ..., "text": ...}`. -/
structure ScriptSeg where
  id : String
  text : String
deriving DecidableEq, Repr

/-- One record appended to `timing` inside the `generate_audio` loop.
`endTime` models the `"end"` key (`end` is a Lean keyword). -/
structure TimingSeg where
  id : String
  start : ℚ
  duration : ℚ
  endTime : ℚ
  text : String
deriving DecidableEq, Repr

/-- The object dumped to `timing.json`: `{"total": total, "segments": timing}`. -/
structure Manifest where
  total : ℚ
  segments : List TimingSeg
deriving DecidableEq, Repr

/-- The body of the `for seg in SCRIPT` loop of `generate_audio`, with the
measured durations (the `ffprobe` outputs) passed in as a parallel list.
Returns the `timing` list together with the final value of `cumulative`:

    timing.append({"id": seg["id"],
                   "start": round(cumulative, 2),
                   "duration": round(duration, 2),
                   "end": round(cumulative + duration + pause, 2),
                   "text": seg["text"]})
    cumulative += duration + pause
-/
def audioLoop (pause : ℚ) : List ScriptSeg → List ℚ → ℚ → List TimingSeg × ℚ
  | s :: script, d :: ds, cumulative =>
    let rest := audioLoop pause script ds (cumulative + d + pause)
    ({ id := s.id
       start := round2 cumulative
       duration := round2 d
       endTime := round2 (cumulative + d + pause)
       text := s.text } :: rest.1, rest.2)
  | _, _, cumulative => ([], cumulative)

/-- The manifest produced by `generate_audio`: `cumulative` starts at `0`,
and after the loop `total = cumulative`. -/
def generate_audio (script : List ScriptSeg) (ds : List ℚ) (pause : ℚ) : Manifest :=
  { total := (audioLoop pause script ds 0).2
    segments := (audioLoop pause script ds 0).1 }

example :
    generate_audio [⟨"a", "x"⟩] [1] (1/2) =
      { total := 3/2, segments := [⟨"a", 0, 1, 3/2, "x"⟩] } := by
  norm_num [generate_audio, audioLoop, round2, round_eq]

/-- One line of `concat.txt`: either `file '<id>.mp3'` or `file 'silence.mp3'`. -/
inductive ConcatEntry where
  | clip : String → ConcatEntry
  | silence : ConcatEntry
deriving DecidableEq, Repr

/-- `true` exactly on the silence line. -/
def ConcatEntry.isSilence : ConcatEntry → Bool
  | .silence => true
  | _ => false

/-- The `concat.txt` writer:

    for i, seg in enumerate(SCRIPT):
        f.write(f"file '\x7bseg['id']\x7d.mp3'\n")
        if i < len(SCRIPT) - 1:
            f.write(f"file 'silence.mp3'\n")

i.e. one clip line per segment, with a silence line after every clip
except the one for the last segment. -/
def concatList : List ScriptSeg → List ConcatEntry
  | [] => []
  | [s] => [ConcatEntry.clip (s.id ++ ".mp3")]
  | s :: s2 :: script =>
      ConcatEntry.clip (s.id ++ ".mp3") :: ConcatEntry.silence ::
        concatList (s2 :: script)

/-- Durations of the audio files named by the lines of `concat.txt`, given
the measured clip durations `ds` (one per segment, in script order): the
clip for segment `i` lasts `ds[i]`, and `silence.mp3` is generated by
`ffmpeg ... -t str(pause)`, so it lasts `pause`. -/
def concatDurations (pause : ℚ) : List ℚ → List ℚ
  | [] => []
  | [d] => [d]
  | d :: d2 :: ds => d :: pause :: concatDurations pause (d2 :: ds)

/-- One literal entry of the hand-copied `TIMING` table of the synced
scenes: `{"start": ..., "end": ...}`. -/
structure TimingEntry where
  start : ℚ
  endTime : ℚ
deriving DecidableEq, Repr

/-- The `segment` helper of the synced scenes, as a function on the
renderer clock (`self.renderer.time`).  The caller-supplied action
advances the clock by `actionTime`; afterwards

    target = t["end"] - t["start"]
    elapsed = self.renderer.time - start
    if elapsed < target:
        self.wait(target - elapsed)

Returns the renderer clock after the segment. -/
def segmentRun (clock : ℚ) (t : TimingEntry) (actionTime : ℚ) : ℚ :=
  let target := t.endTime - t.start
  let start := clock
  let afterAction := clock + actionTime
  let elapsed := afterAction - start
  if elapsed < target then afterAction + (target - elapsed) else afterAction

/-- The `construct` method: run the segments in manifest order, threading
the renderer clock; each list entry pairs a `TIMING` entry with the time
its animation action takes. -/
def runDriver : ℚ → List (TimingEntry × ℚ) → ℚ
  | clock, [] => clock
  | clock, (t, e) :: rest => runDriver (segmentRun clock t e) rest

/-- A minimal JSON value type for the `timing.json` interchange format
(numbers as exact rationals). -/
inductive Json where
  | str : String → Json
  | num : ℚ → Json
  | arr : List Json → Json
  | obj : List (String × Json) → Json

/-- Key lookup in a JSON object's field list. -/
def lookupField : List (String × Json) → String → Option Json
  | [], _ => none
  | (k, v) :: fields, key => if k = key then some v else lookupField fields key

/-- Projections of a JSON value onto each constructor. -/
def Json.asStr : Json → Option String
  | .str s => some s
  | _ => none

def Json.asNum : Json → Option ℚ
  | .num q => some q
  | _ => none

def Json.asArr : Json → Option (List Json)
  | .arr l => some l
  | _ => none

def Json.asObj : Json → Option (List (String × Json))
  | .obj l => some l
  | _ => none

/-- The JSON shape of one timing record, as dumped by
`json.dump(\x7b"total": total, "segments": timing\x7d, f)`. -/
def TimingSeg.toJson (s : TimingSeg) : Json :=
  .obj [("id", .str s.id), ("start", .num s.start), ("duration", .num s.duration),
        ("end", .num s.endTime), ("text", .str s.text)]

/-- The JSON shape of the whole manifest. -/
def Manifest.toJson (m : Manifest) : Json :=
  .obj [("total", .num m.total), ("segments", .arr (m.segments.map TimingSeg.toJson))]

/-- Modelled from the spec: parsing one segment record back from the stated
JSON shape (the repository writes `timing.json` but has no reader — the
synced scenes hand-copy the values — so the parse direction of the
round-trip property is taken from the spec's interchange-format
description in §6). -/
def TimingSeg.fromJson (j : Json) : Option TimingSeg := do
  let fields ← j.asObj
  let id ← (← lookupField fields "id").asStr
  let start ← (← lookupField fields "start").asNum
  let duration ← (← lookupField fields "duration").asNum
  let endTime ← (← lookupField fields "end").asNum
  let text ← (← lookupField fields "text").asStr
  pure { id := id, start := start, duration := duration, endTime := endTime, text := text }

/-- Parse a list of segment records, failing if any element fails. -/
def parseSegments : List Json → Option (List TimingSeg)
  | [] => some []
  | j :: js => do
      let s ← TimingSeg.fromJson j
      let ss ← parseSegments js
      pure (s :: ss)

/-- Modelled from the spec: parsing a manifest back from the stated JSON
shape `\x7b"total": <float>, "segments": [...]\x7d`. -/
def Manifest.fromJson (j : Json) : Option Manifest := do
  let fields ← j.asObj
  let total ← (← lookupField fields "total").asNum
  let segsJson ← (← lookupField fields "segments").asArr
  let segs ← parseSegments segsJson
  pure { total := total, segments := segs }

/-- The Euclidean loop of `gcd_lcm_demo.py` (`EuclideanAlgorithmVisual`),
recording one `(current_a, current_b, quotient, remainder)` tuple per
iteration:

    while current_b > 0:
        quotient = current_a // current_b
        remainder = current_a % current_b
        steps.append((current_a, current_b, quotient, remainder))
        current_a, current_b = current_b, remainder

The loop terminates because `current_b` strictly decreases. -/
def euclidSteps (a b : ℕ) : List (ℕ × ℕ × ℕ × ℕ) :=
  if h : b = 0 then []
  else (a, b, a / b, a % b) :: euclidSteps b (a % b)
termination_by b
decreasing_by exact Nat.mod_lt a (Nat.pos_of_ne_zero h)

/-- The final value of `current_a` when the loop exits (`gcd = current_a`). -/
def euclidLoop (a b : ℕ) : ℕ :=
  if h : b = 0 then a
  else euclidLoop b (a % b)
termination_by b
decreasing_by exact Nat.mod_lt a (Nat.pos_of_ne_zero h)

example : euclidLoop 48 18 = 6 := by simp [euclidLoop]
example : euclidSteps 48 18 = [(48, 18, 2, 12), (18, 12, 1, 6), (12, 6, 2, 0)] := by
  simp [euclidSteps]

/-! ### Helper lemmas about the accumulator -/

lemma round2_zero : round2 0 = 0 := by
  simp [round2]

lemma audioLoop_snd (pause : ℚ) :
    ∀ (script : List ScriptSeg) (ds : List ℚ) (c : ℚ), ds.length = script.length →
      (audioLoop pause script ds c).2 = c + ds.sum + ds.length * pause := by
  intro script
  induction script with
  | nil =>
    intro ds c h
    rw [List.length_nil, List.length_eq_zero] at h
    subst h
    simp [audioLoop]
  | cons s script ih =>
    intro ds c h
    cases ds with
    | nil => simp at h
    | cons d ds =>
      have := ih ds (c + d + pause) (by simpa using h)
      simp only [audioLoop, this]
      push_cast [List.sum_cons, List.length_cons]
      ring

lemma audioLoop_head_start (pause : ℚ) (script : List ScriptSeg) (ds : List ℚ) (c : ℚ)
    (x : TimingSeg) (hx : (audioLoop pause script ds c).1.head? = some x) :
    x.start = round2 c := by
  cases script with
  | nil => simp [audioLoop] at hx
  | cons s script =>
    cases ds with
    | nil => simp [audioLoop] at hx
    | cons d ds =>
      simp only [audioLoop, List.head?_cons, Option.some.injEq] at hx
      rw [← hx]

lemma audioLoop_chain (pause : ℚ) :
    ∀ (script : List ScriptSeg) (ds : List ℚ) (c : ℚ),
      List.Chain' (fun s t => t.start = s.endTime) (audioLoop pause script ds c).1 := by
  intro script
  induction script with
  | nil => intro ds c; simp [audioLoop]
  | cons s script ih =>
    intro ds c
    cases ds with
    | nil => simp [audioLoop]
    | cons d ds =>
      simp only [audioLoop]
      refine List.chain'_cons'.mpr ⟨?_, ih ds (c + d + pause)⟩
      intro y hy
      exact audioLoop_head_start pause script ds (c + d + pause) y hy

lemma audioLoop_getLast (pause : ℚ) :
    ∀ (script : List ScriptSeg) (ds : List ℚ) (c : ℚ), ds.length = script.length →
      script ≠ [] →
      (audioLoop pause script ds c).1.getLast?.map TimingSeg.endTime
        = some (round2 ((audioLoop pause script ds c).2)) := by
  intro script
  induction script with
  | nil => intro ds c _ hne; exact absurd rfl hne
  | cons s script ih =>
    intro ds c h _
    cases ds with
    | nil => simp at h
    | cons d ds =>
      cases script with
      | nil =>
        rw [List.length_cons, List.length_cons, List.length_nil] at h
        have hds : ds = [] := List.length_eq_zero.mp (by omega)
        subst hds
        simp [audioLoop]
      | cons s2 script2 =>
        cases ds with
        | nil => simp at h
        | cons d2 ds2 =>
          have hlen : (d2 :: ds2).length = (s2 :: script2).length := by simpa using h
          have hrec := ih (d2 :: ds2) (c + d + pause) hlen (by simp)
          simp only [audioLoop] at hrec ⊢
          rw [List.getLast?_cons_cons]
          exact hrec

/-! ### Helper lemmas about the playlist, driver, JSON codec and Euclid loop -/

lemma concatDurations_sum (pause : ℚ) :
    ∀ (ds : List ℚ) (d : ℚ),
      (concatDurations pause (d :: ds)).sum = d + ds.sum + ds.length * pause := by
  intro ds
  induction ds with
  | nil => intro d; simp [concatDurations]
  | cons d2 ds ih =>
    intro d
    simp only [concatDurations, List.sum_cons, ih d2]
    push_cast [List.length_cons]
    ring

lemma segmentRun_eq_max (clock : ℚ) (t : TimingEntry) (e : ℚ) :
    segmentRun clock t e = clock + max (t.endTime - t.start) e := by
  simp only [segmentRun, add_sub_cancel_left]
  split
  · rename_i h
    rw [max_eq_left h.le]
    ring
  · rename_i h
    rw [max_eq_right (not_lt.mp h)]

lemma runDriver_shift :
    ∀ (rest : List (TimingEntry × ℚ)) (c d : ℚ),
      runDriver (c + d) rest = runDriver c rest + d := by
  intro rest
  induction rest with
  | nil => intro c d; rfl
  | cons te rest ih =>
    intro c d
    obtain ⟨t, e⟩ := te
    simp only [runDriver, segmentRun_eq_max]
    rw [show c + d + max (t.endTime - t.start) e = c + max (t.endTime - t.start) e + d by ring,
      ih]

lemma fromJson_toJson (s : TimingSeg) : TimingSeg.fromJson s.toJson = some s := by
  cases s
  rfl

lemma parseSegments_map (l : List TimingSeg) :
    parseSegments (l.map TimingSeg.toJson) = some l := by
  induction l with
  | nil => rfl
  | cons s l ih =>
    simp only [List.map_cons, parseSegments, fromJson_toJson, ih, Option.bind_eq_bind,
      Option.some_bind]
    rfl

lemma euclidSteps_sound :
    ∀ (b a : ℕ), ∀ s ∈ euclidSteps a b,
      s.1 = s.2.1 * s.2.2.1 + s.2.2.2 ∧ s.2.2.2 < s.2.1 := by
  intro b
  induction b using Nat.strong_induction_on with
  | _ b ih =>
    intro a s hs
    rw [euclidSteps] at hs
    split at hs
    · simp at hs
    · rename_i hb
      rcases List.mem_cons.mp hs with h | h
      · subst h
        exact ⟨(Nat.div_add_mod a b).symm, Nat.mod_lt a (Nat.pos_of_ne_zero hb)⟩
      · exact ih (a % b) (Nat.mod_lt a (Nat.pos_of_ne_zero hb)) b s h

lemma euclidLoop_gcd : ∀ b a : ℕ, euclidLoop a b = Nat.gcd a b := by
  intro b
  induction b using Nat.strong_induction_on with
  | _ b ih =>
    intro a
    rw [euclidLoop]
    split
    · rename_i hb
      subst hb
      simp
    · rename_i hb
      rw [ih (a % b) (Nat.mod_lt a (Nat.pos_of_ne_zero hb)) b,
        Nat.gcd_comm b (a % b), ← Nat.gcd_rec b a, Nat.gcd_comm b a]

/-! ### Claim theorems -/

/-- C1 (counterexample): with one segment of measured duration 1 and pause
1/2, the manifest's `total` is 3/2, not the claimed `Σ dᵢ + (n−1)·p = 1`
(equivalently, not the last segment's `end` minus the trailing pause,
which is also 1): the accumulator adds the pause after the last segment. -/
theorem total_no_trailing_pause_counterexample :
    (generate_audio [⟨"01_hook", "h"⟩] [1] (1/2)).total = 3/2 ∧
    (generate_audio [⟨"01_hook", "h"⟩] [1] (1/2)).total ≠ 1 := by
  norm_num [generate_audio, audioLoop]

/-- C1 (amended): for every narration sequence of length `n ≥ 1` with pause
`p` and measured durations `d₁…dₙ`, the `total` written to the manifest is
`Σᵢ dᵢ + n·p` — a pause is counted after every segment, the last included —
and the last segment's `end` equals `total` rounded to 2 decimals. -/
theorem total_includes_trailing_pause (script : List ScriptSeg) (ds : List ℚ) (pause : ℚ)
    (hlen : ds.length = script.length) (hne : script ≠ []) :
    (generate_audio script ds pause).total = ds.sum + ds.length * pause ∧
    ((generate_audio script ds pause).segments.getLast?).map TimingSeg.endTime
      = some (round2 ((generate_audio script ds pause).total)) := by
  constructor
  · have := audioLoop_snd pause script ds 0 hlen
    simpa [generate_audio] using this
  · simpa [generate_audio] using audioLoop_getLast pause script ds 0 hlen hne

/-- Witness for C1's amended theorem at the binary-search scenario inputs. -/
theorem total_includes_trailing_pause_witness :
    (generate_audio [⟨"01_hook", "h"⟩, ⟨"02_answer", "b"⟩] [302/100, 207/100] (1/2)).total
        = ([302/100, 207/100] : List ℚ).sum + (([302/100, 207/100] : List ℚ).length : ℚ) * (1/2) ∧
    ((generate_audio [⟨"01_hook", "h"⟩, ⟨"02_answer", "b"⟩] [302/100, 207/100]
        (1/2)).segments.getLast?).map TimingSeg.endTime
      = some (round2 ((generate_audio [⟨"01_hook", "h"⟩, ⟨"02_answer", "b"⟩] [302/100, 207/100]
        (1/2)).total)) :=
  total_includes_trailing_pause _ _ _ (by decide) (by decide)

/-- C2: for each segment of the playback driver with target `end − start`,
if the rendering action takes `e <` target the driver waits exactly
`target − e` on top of the action (first conjunct); if `e ≥` target it
returns right after the action with zero extra wait (second conjunct); and
the time later segments add to the clock is the same whether this segment
overran or not — no catch-up (third conjunct). -/
theorem segment_pad_policy (clock : ℚ) (t : TimingEntry) (e : ℚ) :
    (e < t.endTime - t.start →
      segmentRun clock t e = (clock + e) + ((t.endTime - t.start) - e)) ∧
    (t.endTime - t.start ≤ e → segmentRun clock t e = clock + e) ∧
    (∀ rest : List (TimingEntry × ℚ),
      runDriver (segmentRun clock t e) rest - segmentRun clock t e =
        runDriver (clock + e) rest - (clock + e)) := by
  refine ⟨?_, ?_, ?_⟩
  · intro h
    rw [segmentRun_eq_max, max_eq_left h.le]
    ring
  · intro h
    rw [segmentRun_eq_max, max_eq_right h]
  · intro rest
    have h1 : segmentRun clock t e = (clock + e) + (max (t.endTime - t.start) e - e) := by
      rw [segmentRun_eq_max]
      ring
    rw [h1, runDriver_shift]
    ring

/-- Witness for C2 at the spec's scenario: target 5.0, action 3.2 → wait
1.8; action 6.0 → zero extra wait. -/
theorem segment_pad_policy_witness :
    segmentRun 0 ⟨0, 5⟩ (16/5) = (0 + 16/5) + (((5 : ℚ) - 0) - 16/5) ∧
    segmentRun 0 ⟨0, 5⟩ 6 = (0 : ℚ) + 6 :=
  ⟨(segment_pad_policy 0 ⟨0, 5⟩ (16/5)).1 (by norm_num),
   (segment_pad_policy 0 ⟨0, 5⟩ 6).2.1 (by norm_num)⟩

/-- C3: in every manifest the accumulator produces, the first segment's
`start` is 0, and each later segment's `start` equals the previous
segment's `end` (both are `round2` of the same accumulated offset). -/
theorem segments_contiguous (script : List ScriptSeg) (ds : List ℚ) (pause : ℚ)
    (hlen : ds.length = script.length) (hne : script ≠ []) :
    ((generate_audio script ds pause).segments.head?).map TimingSeg.start = some 0 ∧
    List.Chain' (fun s t => t.start = s.endTime) (generate_audio script ds pause).segments := by
  constructor
  · cases script with
    | nil => exact absurd rfl hne
    | cons s script =>
      cases ds with
      | nil => simp at hlen
      | cons d ds =>
        simp [generate_audio, audioLoop, round2_zero]
  · exact audioLoop_chain pause script ds 0

/-- Witness for C3 at the binary-search scenario inputs. -/
theorem segments_contiguous_witness :
    ((generate_audio [⟨"01_hook", "h"⟩, ⟨"02_answer", "b"⟩] [302/100, 207/100]
        (1/2)).segments.head?).map TimingSeg.start = some 0 ∧
    List.Chain' (fun s t => t.start = s.endTime)
      (generate_audio [⟨"01_hook", "h"⟩, ⟨"02_answer", "b"⟩] [302/100, 207/100]
        (1/2)).segments :=
  segments_contiguous _ _ _ (by decide) (by decide)

/-- C4 (counterexample): a single segment with measured duration 2 and
pause 1/2 gets `end = 5/2` and `total = 5/2`, not the claimed `end = d₁`
and `total = d₁` (which would be 2): the trailing pause is added even for
`n = 1`. -/
theorem single_segment_counterexample :
    (generate_audio [⟨"01_hook", "h"⟩] [2] (1/2)).segments.map TimingSeg.endTime = [5/2] ∧
    (generate_audio [⟨"01_hook", "h"⟩] [2] (1/2)).total = 5/2 ∧
    ((5 : ℚ)/2 ≠ 2) := by
  norm_num [generate_audio, audioLoop, round2, round_eq]

/-- C4 (amended): a single-segment sequence with measured duration `d` and
pause `p` produces `start₁ = 0`, `duration₁ = round2 d`,
`end₁ = round2 (d + p)` (the trailing pause IS added), and
`total = d + p`. -/
theorem single_segment_manifest (i t : String) (d pause : ℚ) :
    generate_audio [⟨i, t⟩] [d] pause =
      { total := d + pause,
        segments := [⟨i, 0, round2 d, round2 (d + pause), t⟩] } := by
  simp [generate_audio, audioLoop, round2_zero]

/-- C5: the binary-search scenario — ids `01_hook`/`02_answer`, pause 0.5,
measured durations 3.02 and 2.07 — produces exactly the segments
`{start 0, duration 3.02, end 3.52}` and `{start 3.52, duration 2.07,
end 6.09}` with `total = 6.09`. -/
theorem binary_search_scenario :
    generate_audio
      [⟨"01_hook", "How do you find a word in a dictionary?"⟩,
       ⟨"02_answer", "Binary Search."⟩]
      [302/100, 207/100] (1/2) =
      { total := 609/100,
        segments :=
          [⟨"01_hook", 0, 302/100, 352/100, "How do you find a word in a dictionary?"⟩,
           ⟨"02_answer", 352/100, 207/100, 609/100, "Binary Search."⟩] } := by
  norm_num [generate_audio, audioLoop, round2, round_eq]

/-- C6: manifest generation is deterministic — it is a pure function of the
script, the measured durations and the pause, so equal inputs give equal
manifests (same ids, same offsets, same total). -/
theorem manifest_deterministic (script1 script2 : List ScriptSeg) (ds1 ds2 : List ℚ)
    (p1 p2 : ℚ) (hs : script1 = script2) (hd : ds1 = ds2) (hp : p1 = p2) :
    generate_audio script1 ds1 p1 = generate_audio script2 ds2 p2 := by
  rw [hs, hd, hp]

/-- Witness for C6: two runs on the binary-search scenario inputs agree. -/
theorem manifest_deterministic_witness :
    generate_audio [⟨"01_hook", "h"⟩] [302/100] (1/2) =
      generate_audio [⟨"01_hook", "h"⟩] [302/100] (1/2) :=
  manifest_deterministic _ _ _ _ _ _ rfl rfl rfl

/-- C7: serializing any manifest to the stated JSON shape and parsing it
back yields the same segment sequence and the same total. -/
theorem manifest_json_roundtrip (m : Manifest) :
    Manifest.fromJson m.toJson = some m := by
  obtain ⟨total, segments⟩ := m
  have hne : ("total" : String) ≠ "segments" := by decide
  simp only [Manifest.toJson, Manifest.fromJson, Json.asObj, lookupField,
    Option.bind_eq_bind, Option.some_bind, if_neg hne, eq_self_iff_true, if_true,
    Json.asNum, Json.asArr, parseSegments_map]
  rfl

/-- C8: the concatenation playlist lists the `n` segment clips in script
order with exactly one silence entry between each consecutive pair of
clips and none after the last clip — it is the clip list interspersed with
silence — so it contains exactly `n − 1` silence entries. -/
theorem concat_playlist_structure (script : List ScriptSeg) :
    concatList script =
      List.intersperse ConcatEntry.silence
        (script.map (fun s => ConcatEntry.clip (s.id ++ ".mp3"))) ∧
    ((concatList script).countP ConcatEntry.isSilence : ℕ) = script.length - 1 := by
  induction script with
  | nil => exact ⟨rfl, rfl⟩
  | cons s script ih =>
    cases script with
    | nil => exact ⟨rfl, rfl⟩
    | cons s2 script2 =>
      obtain ⟨ih1, ih2⟩ := ih
      constructor
      · simp only [concatList, List.map_cons, List.intersperse_cons_cons,
          List.map_cons] at ih1 ⊢
        rw [ih1]
      · simp [concatList, List.countP_cons, ConcatEntry.isSilence] at ih2 ⊢
        omega

/-- C9: the Euclidean while-loop of the GCD demo terminates (it is a total
function of its inputs), every recorded step `(aa, bb, q, r)` satisfies
`aa = bb · q + r` with `r < bb`, the final first component is `gcd a b`,
and the demo's fixed run with `a = 48`, `b = 18` yields 6. -/
theorem euclid_loop_correct (a b : ℕ) (ha : 0 < a) (hb : 0 < b) :
    (∀ s ∈ euclidSteps a b, s.1 = s.2.1 * s.2.2.1 + s.2.2.2 ∧ s.2.2.2 < s.2.1) ∧
    euclidLoop a b = Nat.gcd a b ∧
    euclidLoop 48 18 = 6 := by
  refine ⟨euclidSteps_sound b a, euclidLoop_gcd b a, ?_⟩
  simp [euclidLoop]

/-- Witness for C9 at the demo's own inputs `a = 48`, `b = 18`. -/
theorem euclid_loop_correct_witness : euclidLoop 48 18 = Nat.gcd 48 18 :=
  (euclid_loop_correct 48 18 (by norm_num) (by norm_num)).2.1

/-- C10: for every narration sequence (`n ≥ 1` segments), the manifest's
`total` exceeds the summed duration of the files listed in the
concatenation playlist (the `n` clips plus `n − 1` silences of length
`pause`) by exactly one `pause`, because the accumulator adds a pause
after every segment, the last included, while the playlist puts silence
only between consecutive clips. -/
theorem total_exceeds_playlist_by_pause (script : List ScriptSeg) (ds : List ℚ) (pause : ℚ)
    (hlen : ds.length = script.length) (hne : ds ≠ []) :
    (generate_audio script ds pause).total = (concatDurations pause ds).sum + pause := by
  cases ds with
  | nil => exact absurd rfl hne
  | cons d ds =>
    have h1 := audioLoop_snd pause script (d :: ds) 0 hlen
    simp only [generate_audio] at h1 ⊢
    rw [h1, concatDurations_sum pause ds d]
    push_cast [List.length_cons, List.sum_cons]
    ring

/-- Witness for C10 at the binary-search scenario inputs. -/
theorem total_exceeds_playlist_by_pause_witness :
    (generate_audio [⟨"01_hook", "h"⟩, ⟨"02_answer", "b"⟩] [302/100, 207/100] (1/2)).total
      = (concatDurations (1/2) [302/100, 207/100]).sum + 1/2 :=
  total_exceeds_playlist_by_pause _ _ _ (by decide) (by decide)
